import Mathlib

/-!
Verification of the marked-space synchronization core against its source.

Rust strings are modelled as `List Char`; fallible Rust computations that can
panic (`Option::unwrap` on `None`) are modelled with `PanicOr`.  Every
definition is a shallow embedding of the corresponding function in
`src/confluence_page.rs`, `src/markdown_page.rs` or `src/page_emojis.rs`;
definitions whose code lives outside those files are marked
"Modelled from the spec" in their doc comment.
-/

namespace MarkedSpace

/-- Characters of a Rust string. -/
abbrev Chars := List Char

/-- Result of a Rust computation that can panic (for example `Option::unwrap`
applied to `None`). -/
inductive PanicOr (α : Type) where
  | panicked : PanicOr α
  | ok : α → PanicOr α
deriving DecidableEq

/-- Rust `str::split(sep)`: splitting the empty string yields one empty piece,
and every separator occurrence starts a new piece. -/
def splitChar (sep : Char) : Chars → List Chars
  | [] => [[]]
  | ch :: rest =>
    if ch = sep then [] :: splitChar sep rest
    else
      match splitChar sep rest with
      | [] => [[ch]]
      | piece :: pieces => (ch :: piece) :: pieces

/-- Rust `str::split_once(sep)`: split at the first occurrence of `sep`,
`none` when `sep` does not occur. -/
def splitOnceChar (sep : Char) : Chars → Option (Chars × Chars)
  | [] => none
  | ch :: rest =>
    if ch = sep then some ([], rest)
    else
      match splitOnceChar sep rest with
      | none => none
      | some (front, back) => some (ch :: front, back)

/-- Rust `str::trim`: drop whitespace from both ends. -/
def trimChars (l : Chars) : Chars :=
  ((l.dropWhile Char.isWhitespace).reverse.dropWhile Char.isWhitespace).reverse

/-- Rust `str::strip_prefix`: `some` of the remainder when the first argument
is a prefix of the second, `none` otherwise. -/
def dropPre : Chars → Chars → Option Chars
  | [], s => some s
  | _ :: _, [] => none
  | p :: ps, ch :: cs => if ch = p then dropPre ps cs else none

/-- Rust `str::replace(c, d)` with a one-character pattern and replacement. -/
def replaceChar (c d : Char) (l : Chars) : Chars :=
  l.map (fun ch => if ch = c then d else ch)

/-- `responses::Version` (declared in responses.rs): revision number and the
revision message that may embed a provenance marker. -/
structure Version where
  message : Chars
  number : Nat
deriving DecidableEq

/-- `ConfluencePageData::version_message_prefix()`: the fixed provenance
marker prefix. -/
def versionMessagePrefixChars : Chars := "updated by markedspace:".toList

/-- The clause list built inside `ConfluencePageData::extract_path`: each
`;`-separated clause is split on the first `=` (the code calls
`split_once('=').unwrap()`, so a clause without `=` panics) and both sides
are trimmed. -/
def parseClauses : List Chars → PanicOr (List (Chars × Chars))
  | [] => .ok []
  | cl :: rest =>
    match splitOnceChar '=' cl with
    | none => .panicked
    | some (k, v) =>
      match parseClauses rest with
      | .panicked => .panicked
      | .ok kvs => .ok ((trimChars k, trimChars v) :: kvs)

/-- `HashMap::get` after inserting the pairs in order: the last binding of a
key wins, exactly as repeated `HashMap` insertion overwrites. -/
def lookupLast (key : Chars) (kvs : List (Chars × Chars)) : Option Chars :=
  ((kvs.filter (fun kv => kv.1 == key)).getLast?).map (fun kv => kv.2)

/-- `ConfluencePageData::extract_path`: strip the fixed prefix (no prefix
yields `none`, i.e. unmanaged), split the remainder on `;`, split each clause
on the first `=` (panicking when a clause has no `=`), trim both sides, and
look up the `source` clause.  `PathBuf::from_str` is infallible, so the path
is the raw character list of the clause value. -/
def extract_path (version : Version) : PanicOr (Option Chars) :=
  match dropPre versionMessagePrefixChars version.message with
  | some data =>
    match parseClauses (splitChar ';' data) with
    | .panicked => .panicked
    | .ok kvs => .ok (lookupLast "source".toList kvs)
  | none => .ok none

/-- `responses::ContentStatus` (declared in responses.rs; modelled from the
spec: a remote node's status is Current or Archived). -/
inductive ContentStatus where
  | current
  | archived
deriving DecidableEq

/-- `ConfluencePageData`: per-page remote state recovered from the listing. -/
structure ConfluencePageData where
  version : Version
  path : Option Chars
  status : ContentStatus
deriving DecidableEq

/-- `ConfluenceFolder`: folders carry no marker data. -/
structure ConfluenceFolder where
deriving DecidableEq

/-- `ConfluenceNodeType`: a remote node is a page or a folder. -/
inductive ConfluenceNodeType where
  | page : ConfluencePageData → ConfluenceNodeType
  | folder : ConfluenceFolder → ConfluenceNodeType
deriving DecidableEq

/-- `ConfluenceNode`: a node of the remote tree snapshot. -/
structure ConfluenceNode where
  id : Chars
  title : Chars
  parent_id : Option Chars
  data : ConfluenceNodeType
deriving DecidableEq

/-- `ConfluencePageData::is_managed`: the message starts with the fixed
prefix. -/
def ConfluencePageData.is_managed (pd : ConfluencePageData) : Bool :=
  versionMessagePrefixChars.isPrefixOf pd.version.message

/-- The archive request handed to the HTTP client by
`ConfluenceNode::archive`; the client itself is external, so the call is
modelled by the request it receives. -/
structure ArchivePageCall where
  id : Chars
  reason : Chars
deriving DecidableEq

/-- `ConfluenceNode::archive`: calls `archive_page(&self.id, "Orphaned")`. -/
def ConfluenceNode.archive (node : ConfluenceNode) : ArchivePageCall :=
  { id := node.id, reason := "Orphaned".toList }

/-- `RenderedPage`: the rendered output of one document. -/
structure RenderedPage where
  title : Chars
  content : Chars
  source : Chars
  parent : Option Chars
  checksum : Chars
deriving DecidableEq

/-- `RenderedPage::version_message`: the marker written on every managed
write; backslashes in the source path are replaced by forward slashes. -/
def RenderedPage.version_message (p : RenderedPage) : Chars :=
  versionMessagePrefixChars ++ " source=".toList ++ replaceChar '\\' '/' p.source
    ++ "; checksum=".toList ++ p.checksum

/-! ### Basic lemmas about the character utilities -/

theorem dropPre_append (p r : Chars) : dropPre p (p ++ r) = some r := by
  induction p with
  | nil => rfl
  | cons a as ih => simp [dropPre, ih]

theorem dropPre_none_iff (p s : Chars) : dropPre p s = none ↔ p.isPrefixOf s = false := by
  induction p generalizing s with
  | nil => simp [dropPre, List.isPrefixOf]
  | cons a as ih =>
    cases s with
    | nil => simp [dropPre, List.isPrefixOf]
    | cons b bs =>
      by_cases hab : b = a
      · subst hab
        simp [dropPre, List.isPrefixOf, ih]
      · simp [dropPre, List.isPrefixOf, hab, Ne.symm hab]

theorem splitChar_no_sep (sep : Char) (l : Chars) (h : ∀ x ∈ l, x ≠ sep) :
    splitChar sep l = [l] := by
  induction l with
  | nil => rfl
  | cons a as ih =>
    have ha : a ≠ sep := h a (List.mem_cons_self a as)
    have ih2 := ih (fun x hx => h x (List.mem_cons_of_mem a hx))
    simp [splitChar, ha, ih2]

theorem splitChar_append_sep (sep : Char) (l r : Chars) (h : ∀ x ∈ l, x ≠ sep) :
    splitChar sep (l ++ sep :: r) = l :: splitChar sep r := by
  induction l with
  | nil => simp [splitChar]
  | cons a as ih =>
    have ha : a ≠ sep := h a (List.mem_cons_self a as)
    have ih2 := ih (fun x hx => h x (List.mem_cons_of_mem a hx))
    simp [splitChar, ha, ih2]

theorem splitOnceChar_append (sep : Char) (l r : Chars) (h : ∀ x ∈ l, x ≠ sep) :
    splitOnceChar sep (l ++ sep :: r) = some (l, r) := by
  induction l with
  | nil => simp [splitOnceChar]
  | cons a as ih =>
    have ha : a ≠ sep := h a (List.mem_cons_self a as)
    have ih2 := ih (fun x hx => h x (List.mem_cons_of_mem a hx))
    simp [splitOnceChar, ha, ih2]

theorem replaceChar_eq_self (c d : Char) (l : Chars) (h : ∀ x ∈ l, x ≠ c) :
    replaceChar c d l = l := by
  induction l with
  | nil => rfl
  | cons a as ih =>
    have ha : a ≠ c := h a (List.mem_cons_self a as)
    have ih2 := ih (fun x hx => h x (List.mem_cons_of_mem a hx))
    simpa [replaceChar, ha] using ih2

/-- The trimmed key-value view of a clause list in which every clause does
contain an `=`. -/
def kvsOfClauses (clauses : List Chars) : List (Chars × Chars) :=
  clauses.filterMap (fun cl =>
    (splitOnceChar '=' cl).map (fun kv => (trimChars kv.1, trimChars kv.2)))

theorem parseClauses_ok_of_all (clauses : List Chars)
    (h : ∀ cl ∈ clauses, (splitOnceChar '=' cl).isSome) :
    parseClauses clauses = .ok (kvsOfClauses clauses) := by
  induction clauses with
  | nil => rfl
  | cons cl rest ih =>
    have h1 := h cl (List.mem_cons_self cl rest)
    cases hs : splitOnceChar '=' cl with
    | none => rw [hs] at h1; simp at h1
    | some kv =>
      have ih2 := ih (fun x hx => h x (List.mem_cons_of_mem cl hx))
      simp [parseClauses, hs, ih2, kvsOfClauses]

/-! ### The marker round trip (C1) -/

theorem extract_path_round_trip_core (p c : Chars) (n : Nat)
    (hpsemi : ∀ x ∈ p, x ≠ ';') (hptrim : trimChars p = p)
    (hcsemi : ∀ x ∈ c, x ≠ ';') :
    extract_path ⟨versionMessagePrefixChars ++ " source=".toList ++ p
      ++ "; checksum=".toList ++ c, n⟩ = .ok (some p) := by
  have hmsg : versionMessagePrefixChars ++ " source=".toList ++ p
      ++ "; checksum=".toList ++ c
      = versionMessagePrefixChars
        ++ ((" source=".toList ++ p) ++ ';' :: (" checksum=".toList ++ c)) := by
    have h0 : "; checksum=".toList = ';' :: " checksum=".toList := rfl
    rw [h0]
    simp [List.append_assoc]
  have h1 : dropPre versionMessagePrefixChars
      (versionMessagePrefixChars ++ " source=".toList ++ p ++ "; checksum=".toList ++ c)
      = some ((" source=".toList ++ p) ++ ';' :: (" checksum=".toList ++ c)) := by
    rw [hmsg]; exact dropPre_append _ _
  have h2 : splitChar ';' ((" source=".toList ++ p) ++ ';' :: (" checksum=".toList ++ c))
      = [" source=".toList ++ p, " checksum=".toList ++ c] := by
    rw [splitChar_append_sep]
    · rw [splitChar_no_sep]
      intro x hx
      rcases List.mem_append.mp hx with hmem | hmem
      · exact (by decide : ∀ y ∈ " checksum=".toList, y ≠ ';') x hmem
      · exact hcsemi x hmem
    · intro x hx
      rcases List.mem_append.mp hx with hmem | hmem
      · exact (by decide : ∀ y ∈ " source=".toList, y ≠ ';') x hmem
      · exact hpsemi x hmem
  have e1 : splitOnceChar '=' (" source=".toList ++ p) = some (" source".toList, p) := by
    have : " source=".toList ++ p = " source".toList ++ '=' :: p := rfl
    rw [this]
    exact splitOnceChar_append _ _ _ (by decide)
  have e2 : splitOnceChar '=' (" checksum=".toList ++ c)
      = some (" checksum".toList, c) := by
    have : " checksum=".toList ++ c = " checksum".toList ++ '=' :: c := rfl
    rw [this]
    exact splitOnceChar_append _ _ _ (by decide)
  have h3 : parseClauses [" source=".toList ++ p, " checksum=".toList ++ c]
      = .ok [("source".toList, p), ("checksum".toList, trimChars c)] := by
    simp only [parseClauses, e1, e2, hptrim]
    rfl
  have h4 : lookupLast "source".toList
      [("source".toList, p), ("checksum".toList, trimChars c)] = some p := by
    simp only [lookupLast, List.filter]
    rfl
  simp only [extract_path, h1, h2, h3, h4]

/-- C1 (counterexample): with the source path "a.md" (which contains neither
`=` nor `;`) and the checksum string "x;y", encoding via
`RenderedPage::version_message` and decoding via
`ConfluencePageData::extract_path` does not recover the path: decoding
panics, because the extra `;` inside the checksum produces a clause without
`=` that `split_once('=').unwrap()` rejects. -/
theorem c1_marker_round_trip_cex :
    (∀ x ∈ "a.md".toList, x ≠ '=') ∧ (∀ x ∈ "a.md".toList, x ≠ ';') ∧
    extract_path ⟨RenderedPage.version_message
      ⟨"T".toList, [], "a.md".toList, none, "x;y".toList⟩, 1⟩ = PanicOr.panicked := by
  exact ⟨by decide, by decide, by rfl⟩

/-- C1 (amended): marker round trip.  For every source path that contains
none of `=`, `;`, `\` and is unchanged by whitespace trimming, and every
checksum string without `;`, decoding the encoded marker recovers exactly
the original path, and the encoded message carries the checksum clause
verbatim. -/
theorem c1_marker_round_trip (t ct p c : Chars) (par : Option Chars) (n : Nat)
    (_hpeq : ∀ x ∈ p, x ≠ '=') (hpsemi : ∀ x ∈ p, x ≠ ';')
    (hpbs : ∀ x ∈ p, x ≠ '\\') (hptrim : trimChars p = p)
    (hcsemi : ∀ x ∈ c, x ≠ ';') :
    extract_path ⟨RenderedPage.version_message ⟨t, ct, p, par, c⟩, n⟩
      = .ok (some p) ∧
    ∃ front back, RenderedPage.version_message ⟨t, ct, p, par, c⟩
      = front ++ ("; checksum=".toList ++ c) ++ back := by
  have hrep : replaceChar '\\' '/' p = p := replaceChar_eq_self _ _ _ hpbs
  constructor
  · have : RenderedPage.version_message ⟨t, ct, p, par, c⟩
        = versionMessagePrefixChars ++ " source=".toList ++ p
          ++ "; checksum=".toList ++ c := by
      simp [RenderedPage.version_message, hrep]
    rw [this]
    exact extract_path_round_trip_core p c n hpsemi hptrim hcsemi
  · refine ⟨versionMessagePrefixChars ++ " source=".toList ++ p, [], ?_⟩
    simp [RenderedPage.version_message, hrep, List.append_assoc]

/-- C1 witness: the amended round trip evaluated at the source path
"docs/a.md" and checksum "0a1b2c". -/
theorem c1_marker_round_trip_witness :
    extract_path ⟨RenderedPage.version_message
      ⟨"T".toList, [], "docs/a.md".toList, none, "0a1b2c".toList⟩, 5⟩
      = .ok (some "docs/a.md".toList) :=
  (c1_marker_round_trip "T".toList [] "docs/a.md".toList "0a1b2c".toList none 5
    (by decide) (by decide) (by decide) (by decide) (by decide)).1

/-! ### Totality of decoding on managed messages (C2) -/

/-- C2 (counterexample): the message "updated by markedspace:hello" starts
with the fixed prefix, yet `extract_path` fails: the single clause "hello"
contains no `=`, so `split_once('=').unwrap()` panics instead of returning. -/
theorem c2_decode_total_cex :
    versionMessagePrefixChars.isPrefixOf "updated by markedspace:hello".toList = true ∧
    extract_path ⟨"updated by markedspace:hello".toList, 27⟩ = PanicOr.panicked := by
  exact ⟨by decide, by rfl⟩

/-- C2 (amended): decoding returns without failure on every managed message
whose every `;`-separated clause contains an `=`; the result is the trimmed
value of the (last) `source` clause when one exists and `None` otherwise. -/
theorem c2_decode_total (v : Version) (data : Chars)
    (hpre : dropPre versionMessagePrefixChars v.message = some data)
    (hall : ∀ cl ∈ splitChar ';' data, (splitOnceChar '=' cl).isSome) :
    extract_path v
      = .ok (lookupLast "source".toList (kvsOfClauses (splitChar ';' data))) := by
  simp only [extract_path, hpre, parseClauses_ok_of_all _ hall]

/-- C2 witness: the amended statement evaluated on the managed message
"updated by markedspace: source=a.md; checksum=12ab". -/
theorem c2_decode_total_witness :
    extract_path ⟨"updated by markedspace: source=a.md; checksum=12ab".toList, 3⟩
      = .ok (lookupLast "source".toList
          (kvsOfClauses (splitChar ';' " source=a.md; checksum=12ab".toList))) :=
  c2_decode_total ⟨"updated by markedspace: source=a.md; checksum=12ab".toList, 3⟩
    " source=a.md; checksum=12ab".toList (by decide) (by decide)

/-! ### Managed iff prefix (C3) -/

/-- C3: a remote page is managed exactly when its version message starts with
the fixed prefix "updated by markedspace:", and a message that does not start
with the prefix yields no recoverable source path (`extract_path` returns
`None` without failing). -/
theorem c3_managed_iff (pd : ConfluencePageData) :
    (pd.is_managed = true
      ↔ versionMessagePrefixChars.isPrefixOf pd.version.message = true) ∧
    (pd.is_managed = false → extract_path pd.version = .ok none) := by
  constructor
  · exact Iff.rfl
  · intro h
    have hnone : dropPre versionMessagePrefixChars pd.version.message = none :=
      (dropPre_none_iff _ _).mpr (by simpa [ConfluencePageData.is_managed] using h)
    simp [extract_path, hnone]

/-- C3 witness: an unmanaged message yields no recoverable path. -/
theorem c3_managed_iff_witness :
    extract_path ⟨"not a markspace update".toList, 27⟩ = .ok none :=
  (c3_managed_iff ⟨⟨"not a markspace update".toList, 27⟩, none,
    ContentStatus.current⟩).2 (by decide)

/-! ### The property differ (C4) -/

/-- A content-property update: `value = none` is the JSON null sentinel that
requests removal. -/
structure PropertyUpdate where
  key : Chars
  value : Option Chars
  revision : Nat
deriving DecidableEq

/-- Modelled from the spec: the Property Differ (`get_property_updates` in
page_properties.rs, which is not under src/).  Given the locally derived
value of a property and the existing remote property of the same key with
its revision, emit the updates of the spec's table: nothing when both are
absent or both present and equal, a removal carrying the null sentinel when
only the remote is present, a create at revision 0 when only the local is
present, and an update at the remote revision plus 1 when both are present
and differ.  Consistent with the tests in src/page_emojis.rs. -/
def get_property_updates (key : Chars) (localValue : Option Chars)
    (remote : Option (Chars × Nat)) : List PropertyUpdate :=
  match localValue, remote with
  | none, none => []
  | none, some (_, r) => [{ key := key, value := none, revision := r }]
  | some x, none => [{ key := key, value := some x, revision := 0 }]
  | some x, some (y, r) =>
    if x = y then [] else [{ key := key, value := some x, revision := r + 1 }]

/-- C4: property diff determinism and monotonic versioning: both absent emits
nothing; local absent and remote present emits one removal carrying the null
sentinel; local present and remote absent emits one create at revision 0;
equal values emit nothing; different values emit one update at the remote
revision plus 1.  The revision advances by exactly 1 only when the value
changes, and an unchanged value never re-emits an update. -/
theorem c4_property_diff (key x y : Chars) (r : Nat) :
    get_property_updates key none none = [] ∧
    get_property_updates key none (some (y, r))
      = [{ key := key, value := none, revision := r }] ∧
    get_property_updates key (some x) none
      = [{ key := key, value := some x, revision := 0 }] ∧
    get_property_updates key (some x) (some (x, r)) = [] ∧
    (x ≠ y → get_property_updates key (some x) (some (y, r))
      = [{ key := key, value := some x, revision := r + 1 }]) := by
  refine ⟨rfl, rfl, rfl, by simp [get_property_updates],
    fun hxy => by simp [get_property_updates, hxy]⟩

/-- C4 witness: changing the published emoji property from "1f600" to
"1f60d" at remote revision 0 emits one update at revision 1. -/
theorem c4_property_diff_witness :
    get_property_updates "emoji-title-published".toList (some "1f60d".toList)
      (some ("1f600".toList, 0))
      = [{ key := "emoji-title-published".toList, value := some "1f60d".toList,
           revision := 1 }] :=
  (c4_property_diff "emoji-title-published".toList "1f60d".toList
    "1f600".toList 0).2.2.2.2 (by decide)

/-! ### The markdown document model -/

/-- The node kinds of the comrak AST that `MarkdownPage::parse_markdown`
inspects: headings (with level), images and links (with URL), text, the
document root, and everything else. -/
inductive NodeValue where
  | document
  | heading (level : Nat)
  | image (url : Chars)
  | link (url : Chars)
  | text (content : Chars)
  | other
deriving DecidableEq

mutual
/-- A comrak AST node: a value and its children. -/
inductive Node where
  | mk : NodeValue → NodeForest → Node
deriving DecidableEq

/-- The children sequence of a comrak AST node. -/
inductive NodeForest where
  | nil : NodeForest
  | cons : Node → NodeForest → NodeForest
deriving DecidableEq
end

/-- The value of a node. -/
def Node.value : Node → NodeValue
  | Node.mk v _ => v

/-- The children of a node. -/
def Node.children : Node → NodeForest
  | Node.mk _ cs => cs

mutual
/-- The traversal order of `iter_nodes` on one subtree: the node first, then
its children recursively. -/
def preorderNode : Node → List Node
  | Node.mk v cs => Node.mk v cs :: preorderForest cs

/-- The traversal order of `iter_nodes` on a forest: each tree's pre-order
sequence in sibling order. -/
def preorderForest : NodeForest → List Node
  | NodeForest.nil => []
  | NodeForest.cons n ns => preorderNode n ++ preorderForest ns
end

mutual
/-- The pre-order sequence of node VALUES of a subtree; ancestors keep their
value when a descendant is detached, so preserved content is compared at the
value level. -/
def valuesNode : Node → List NodeValue
  | Node.mk v cs => v :: valuesForest cs

/-- The pre-order value sequence of a forest. -/
def valuesForest : NodeForest → List NodeValue
  | NodeForest.nil => []
  | NodeForest.cons n ns => valuesNode n ++ valuesForest ns
end

/-- Whether a node value is a heading. -/
def isHeadingValue : NodeValue → Bool
  | NodeValue.heading _ => true
  | _ => false

/-- Whether a node is a heading (the `NodeValue::Heading` arm of the
`iter_nodes` closure). -/
def isHeadingNode (n : Node) : Bool := isHeadingValue n.value

/-- `AstNode::detach` applied to the first pre-order heading: the heading
subtree is removed from the forest; the flag tells whether a heading was
found. -/
def detachFF : NodeForest → NodeForest × Bool
  | NodeForest.nil => (NodeForest.nil, false)
  | NodeForest.cons (Node.mk v cs) ns =>
    match v with
    | NodeValue.heading _ => (ns, true)
    | _ =>
      match detachFF cs with
      | (cs2, true) => (NodeForest.cons (Node.mk v cs2) ns, true)
      | (_, false) =>
        match detachFF ns with
        | (ns2, flag) => (NodeForest.cons (Node.mk v cs) ns2, flag)

mutual
/-- Modelled from the spec: `helpers::collect_text` (helpers.rs is not under
src/): the concatenated text content of a subtree in traversal order. -/
def collectTextNode : Node → Chars
  | Node.mk v cs =>
    (match v with
     | NodeValue.text s => s
     | _ => []) ++ collectTextForest cs

/-- Concatenated text content of a forest. -/
def collectTextForest : NodeForest → Chars
  | NodeForest.nil => []
  | NodeForest.cons n ns => collectTextNode n ++ collectTextForest ns
end

mutual
theorem valuesNode_eq_map (n : Node) :
    valuesNode n = (preorderNode n).map Node.value := by
  match n with
  | Node.mk v cs =>
    have ih := valuesForest_eq_map cs
    simp [valuesNode, preorderNode, Node.value, ih]
termination_by sizeOf n

theorem valuesForest_eq_map (ns : NodeForest) :
    valuesForest ns = (preorderForest ns).map Node.value := by
  match ns with
  | NodeForest.nil => rfl
  | NodeForest.cons n rest =>
    have ih1 := valuesNode_eq_map n
    have ih2 := valuesForest_eq_map rest
    simp [valuesForest, preorderForest, ih1, ih2]
termination_by sizeOf ns
end

/-! ### Local links, attachments, and `MarkdownPage::parse_markdown` -/

/-- Join pieces with a separator (inverse direction of `splitChar`). -/
def joinSep (sep : Chars) : List Chars → Chars
  | [] => []
  | [x] => x
  | x :: y :: xs => x ++ sep ++ joinSep sep (y :: xs)

/-- Modelled from the spec: Rust `Path::parent` on a relative slash path:
everything before the last `/`, empty when there is no `/`. -/
def parentDir (p : Chars) : Chars :=
  joinSep ['/'] (splitChar '/' p).dropLast

/-- Modelled from the spec: path normalization relative to the referencing
document's directory, handling `./` and `../` components. -/
def normalizeComponents (acc : List Chars) : List Chars → List Chars
  | [] => acc.reverse
  | comp :: rest =>
    if comp = [] ∨ comp = ".".toList then normalizeComponents acc rest
    else if comp = "..".toList then normalizeComponents acc.tail rest
    else normalizeComponents (comp :: acc) rest

/-- `LocalLink`: a reference to another local document, with an optional
anchor fragment. -/
structure LocalLink where
  path : Chars
  anchor : Option Chars
deriving DecidableEq

/-- Modelled from the spec: `LocalLink::from_str(url, dir)` (local_link.rs is
not under src/): the target is split at `#` into a path part and an optional
anchor, and the path part is normalized relative to the referencing
document's directory; modelled as total. -/
def localLinkFromStr (url : Chars) (dir : Chars) : Option LocalLink :=
  match splitOnceChar '#' url with
  | some (p, a) =>
    some { path := joinSep ['/'] (normalizeComponents [] (splitChar '/' (dir ++ '/' :: p))),
           anchor := some a }
  | none =>
    some { path := joinSep ['/'] (normalizeComponents [] (splitChar '/' (dir ++ '/' :: url))),
           anchor := none }

/-- Modelled from the spec: `ImageAttachment::new(url, page_directory)`
(attachment.rs is not under src/): an attachment association scoped to the
owning document's directory. -/
structure ImageAttachment where
  url : Chars
  pageDir : Chars
deriving DecidableEq

/-- `FrontMatter` (frontmatter.rs is not under src/): the fields
`parse_markdown` and `parse_emoji` read; an empty `emoji` string means the
key is absent. -/
structure FrontMatter where
  emoji : Chars
  unknown_keys : List Chars
deriving DecidableEq

/-- `MarkdownPage`: the outcome of parsing one markdown document; `children`
is the document forest after the title heading has been detached. -/
structure MarkdownPage where
  title : Chars
  source : Chars
  children : NodeForest
  attachments : List ImageAttachment
  local_links : List LocalLink
  front_matter : FrontMatter
  warnings : List Chars
deriving DecidableEq

/-- `ConfluenceError::parsing_errors(source, errors)`: a parse failure names
the offending document and carries its error messages; other documents are
unaffected because the error is returned per document. -/
structure ParseErrorData where
  source : Chars
  errors : List Chars
deriving DecidableEq

/-- The `NodeValue::Image` arm of the `iter_nodes` closure: an image whose
URL does not start with "http" becomes an attachment scoped to the owning
document's directory. -/
def collectAttachments (fsParent : Chars) (nodes : List Node) : List ImageAttachment :=
  nodes.filterMap (fun n =>
    match n.value with
    | NodeValue.image url =>
      if "http".toList.isPrefixOf url then none
      else some { url := url, pageDir := fsParent }
    | _ => none)

/-- The `NodeValue::Link` arm of the `iter_nodes` closure: a link whose URL
starts with none of "http://", "https://", "ac:" is parsed as a local link
relative to the source file's directory. -/
def collectLocalLinks (sourceDir : Chars) (nodes : List Node) : List LocalLink :=
  nodes.filterMap (fun n =>
    match n.value with
    | NodeValue.link url =>
      if "http://".toList.isPrefixOf url || "https://".toList.isPrefixOf url
          || "ac:".toList.isPrefixOf url then none
      else localLinkFromStr url sourceDir
    | _ => none)

/-- `MarkdownPage::parse_markdown`: walk the document tree in `iter_nodes`
order collecting attachments and local links (`LocalLink::from_str` is
modelled as total, so link parse errors do not occur); find the first
heading; fail naming the source when there is none or when its level is not
1; otherwise the title is the heading's collected text and the heading node
is detached from the tree.  The unreachable branch in which `find?` returns
a non-heading reports an empty error list. -/
def parse_markdown (source fsParent : Chars) (children : NodeForest)
    (fm : FrontMatter) : Except ParseErrorData MarkdownPage :=
  let nodes := preorderForest children
  let warnings : List Chars :=
    if fm.unknown_keys.isEmpty then []
    else ["Unknown top level front matter keys: ".toList
            ++ joinSep ", ".toList fm.unknown_keys]
  match nodes.find? isHeadingNode with
  | none =>
    Except.error { source := source, errors := ["missing first heading for title".toList] }
  | some h =>
    match h.value with
    | NodeValue.heading lvl =>
      if lvl = 1 then
        Except.ok { title := collectTextNode h, source := source,
                    children := (detachFF children).1,
                    attachments := collectAttachments fsParent nodes,
                    local_links := collectLocalLinks (parentDir source) nodes,
                    front_matter := fm, warnings := warnings }
      else
        Except.error
          { source := source,
            errors := ["first heading in file should be level 1, instead was level ".toList
                         ++ Nat.toDigits 10 lvl] }
    | _ => Except.error { source := source, errors := [] }

/-! ### Specification of detaching the first heading -/

theorem valuesForest_cons (v : NodeValue) (cs ns : NodeForest) :
    valuesForest (NodeForest.cons (Node.mk v cs) ns)
      = v :: (valuesForest cs ++ valuesForest ns) := by
  simp [valuesForest, valuesNode]

theorem preorderForest_cons (v : NodeValue) (cs ns : NodeForest) :
    preorderForest (NodeForest.cons (Node.mk v cs) ns)
      = Node.mk v cs :: (preorderForest cs ++ preorderForest ns) := by
  simp [preorderForest, preorderNode]

theorem detachFF_cons_heading (lvl : Nat) (cs ns : NodeForest) :
    detachFF (NodeForest.cons (Node.mk (NodeValue.heading lvl) cs) ns) = (ns, true) := rfl

theorem detachFF_cons_nh_true (v : NodeValue) (cs ns cs2 : NodeForest)
    (hv : isHeadingValue v = false) (hcs : detachFF cs = (cs2, true)) :
    detachFF (NodeForest.cons (Node.mk v cs) ns)
      = (NodeForest.cons (Node.mk v cs2) ns, true) := by
  cases v <;> simp [isHeadingValue] at hv <;> simp [detachFF, hcs]

theorem detachFF_cons_nh_false (v : NodeValue) (cs ns cs2 ns2 : NodeForest)
    (flag : Bool) (hv : isHeadingValue v = false)
    (hcs : detachFF cs = (cs2, false)) (hns : detachFF ns = (ns2, flag)) :
    detachFF (NodeForest.cons (Node.mk v cs) ns)
      = (NodeForest.cons (Node.mk v cs) ns2, flag) := by
  cases v <;> simp [isHeadingValue] at hv <;> simp [detachFF, hcs, hns]

/-- A forest whose pre-order traversal holds no heading is left untouched by
the detach pass. -/
theorem detachFF_of_none (F : NodeForest)
    (h : (preorderForest F).find? isHeadingNode = none) :
    detachFF F = (F, false) := by
  match F with
  | NodeForest.nil => rfl
  | NodeForest.cons (Node.mk v cs) ns =>
    rw [preorderForest_cons] at h
    have hall := List.find?_eq_none.mp h
    have hhead : isHeadingValue v = false := by
      simpa [isHeadingNode, Node.value] using
        hall (Node.mk v cs) (List.mem_cons_self _ _)
    have hcs : (preorderForest cs).find? isHeadingNode = none :=
      List.find?_eq_none.mpr (fun x hx =>
        hall x (List.mem_cons_of_mem _ (List.mem_append.mpr (Or.inl hx))))
    have hns : (preorderForest ns).find? isHeadingNode = none :=
      List.find?_eq_none.mpr (fun x hx =>
        hall x (List.mem_cons_of_mem _ (List.mem_append.mpr (Or.inr hx))))
    have ihcs := detachFF_of_none cs hcs
    have ihns := detachFF_of_none ns hns
    exact detachFF_cons_nh_false v cs ns cs ns false hhead ihcs ihns
termination_by sizeOf F

/-- No value in a heading-free pre-order traversal is a heading value. -/
theorem valuesForest_no_heading (F : NodeForest)
    (h : (preorderForest F).find? isHeadingNode = none) :
    ∀ v ∈ valuesForest F, isHeadingValue v = false := by
  intro v hv
  rw [valuesForest_eq_map] at hv
  rcases List.mem_map.mp hv with ⟨n, hn, hval⟩
  have := List.find?_eq_none.mp h n hn
  subst hval
  simpa [isHeadingNode] using this

/-- Detachment specification: when the pre-order traversal of a forest finds
a first heading `h`, the value sequence decomposes as a heading-free part,
then `h`'s subtree values, then the rest, and the detached forest's value
sequence is exactly the decomposition without `h`'s segment. -/
theorem detachFF_spec (F : NodeForest) (h : Node)
    (hfind : (preorderForest F).find? isHeadingNode = some h) :
    ∃ l r, valuesForest F = l ++ valuesNode h ++ r ∧
      (∀ v ∈ l, isHeadingValue v = false) ∧
      valuesForest (detachFF F).1 = l ++ r ∧ (detachFF F).2 = true := by
  match F with
  | NodeForest.nil => simp [preorderForest] at hfind
  | NodeForest.cons (Node.mk v cs) ns =>
    rw [preorderForest_cons] at hfind
    by_cases hhead : isHeadingNode (Node.mk v cs)
    · rw [List.find?_cons_of_pos _ hhead] at hfind
      have hh : h = Node.mk v cs := by injection hfind with e; exact e.symm
      subst hh
      obtain ⟨lvl, hlvl⟩ : ∃ lvl, v = NodeValue.heading lvl := by
        cases v <;> first
          | exact ⟨_, rfl⟩
          | simp [isHeadingNode, Node.value, isHeadingValue] at hhead
      subst hlvl
      refine ⟨[], valuesForest ns, ?_, by simp, ?_, ?_⟩
      · simp [valuesForest_cons, valuesNode]
      · simp [detachFF_cons_heading]
      · simp [detachFF_cons_heading]
    · rw [List.find?_cons_of_neg _ hhead, List.find?_append] at hfind
      have hhv : isHeadingValue v = false := by
        simpa [isHeadingNode, Node.value] using hhead
      cases hcs : (preorderForest cs).find? isHeadingNode with
      | some h1 =>
        rw [hcs] at hfind
        have hh : h1 = h := by simpa [Option.or] using hfind
        subst hh
        obtain ⟨l1, r1, hdec, hnh, hdet, hflag⟩ := detachFF_spec cs h1 hcs
        cases hdcs : detachFF cs with
        | mk cs2 flag =>
          rw [hdcs] at hdet hflag
          simp at hdet hflag
          subst hflag
          have hstep := detachFF_cons_nh_true v cs ns cs2 hhv hdcs
          refine ⟨v :: l1, r1 ++ valuesForest ns, ?_, ?_, ?_, ?_⟩
          · rw [valuesForest_cons, hdec]
            simp [List.append_assoc]
          · intro x hx
            rcases List.mem_cons.mp hx with hx | hx
            · subst hx; exact hhv
            · exact hnh x hx
          · rw [hstep]
            rw [valuesForest_cons, hdet]
            simp [List.append_assoc]
          · rw [hstep]
      | none =>
        rw [hcs] at hfind
        simp [Option.or] at hfind
        have hdcs := detachFF_of_none cs hcs
        obtain ⟨l2, r2, hdec, hnh, hdet, hflag⟩ := detachFF_spec ns h hfind
        cases hdns : detachFF ns with
        | mk ns2 flag =>
          rw [hdns] at hdet hflag
          simp at hdet hflag
          subst hflag
          have hstep := detachFF_cons_nh_false v cs ns cs ns2 true hhv hdcs hdns
          refine ⟨v :: (valuesForest cs ++ l2), r2, ?_, ?_, ?_, ?_⟩
          · rw [valuesForest_cons, hdec]
            simp [List.append_assoc]
          · intro x hx
            rcases List.mem_cons.mp hx with hx | hx
            · subst hx; exact hhv
            · rcases List.mem_append.mp hx with hx | hx
              · exact valuesForest_no_heading cs hcs x hx
              · exact hnh x hx
          · rw [hstep]
            rw [valuesForest_cons, hdet]
            simp [List.append_assoc]
          · rw [hstep]
termination_by sizeOf F

/-! ### Characterization of `parse_markdown` -/

/-- The page produced by a successful parse whose first heading is `h`. -/
def parsedPage (source fsParent : Chars) (children : NodeForest) (fm : FrontMatter)
    (h : Node) : MarkdownPage :=
  { title := collectTextNode h, source := source,
    children := (detachFF children).1,
    attachments := collectAttachments fsParent (preorderForest children),
    local_links := collectLocalLinks (parentDir source) (preorderForest children),
    front_matter := fm,
    warnings :=
      if fm.unknown_keys.isEmpty then []
      else ["Unknown top level front matter keys: ".toList
              ++ joinSep ", ".toList fm.unknown_keys] }

theorem parse_markdown_no_heading (source fsParent : Chars) (children : NodeForest)
    (fm : FrontMatter)
    (hfind : (preorderForest children).find? isHeadingNode = none) :
    parse_markdown source fsParent children fm
      = Except.error
          { source := source,
            errors := ["missing first heading for title".toList] } := by
  simp [parse_markdown, hfind]

theorem parse_markdown_heading1 (source fsParent : Chars) (children : NodeForest)
    (fm : FrontMatter) (hcs : NodeForest)
    (hfind : (preorderForest children).find? isHeadingNode
      = some (Node.mk (NodeValue.heading 1) hcs)) :
    parse_markdown source fsParent children fm
      = Except.ok (parsedPage source fsParent children fm
          (Node.mk (NodeValue.heading 1) hcs)) := by
  simp [parse_markdown, hfind, Node.value, parsedPage]

theorem parse_markdown_bad_level (source fsParent : Chars) (children : NodeForest)
    (fm : FrontMatter) (lvl : Nat) (hcs : NodeForest)
    (hfind : (preorderForest children).find? isHeadingNode
      = some (Node.mk (NodeValue.heading lvl) hcs))
    (hlvl : lvl ≠ 1) :
    parse_markdown source fsParent children fm
      = Except.error
          { source := source,
            errors := ["first heading in file should be level 1, instead was level ".toList
                         ++ Nat.toDigits 10 lvl] } := by
  simp [parse_markdown, hfind, Node.value, hlvl]

/-- Inversion: a successful parse found a level-1 first heading and returned
exactly the page built from it. -/
theorem parse_markdown_ok_inv (source fsParent : Chars) (children : NodeForest)
    (fm : FrontMatter) (page : MarkdownPage)
    (h : parse_markdown source fsParent children fm = Except.ok page) :
    ∃ hcs, (preorderForest children).find? isHeadingNode
        = some (Node.mk (NodeValue.heading 1) hcs) ∧
      page = parsedPage source fsParent children fm (Node.mk (NodeValue.heading 1) hcs) := by
  cases hfind : (preorderForest children).find? isHeadingNode with
  | none =>
    rw [parse_markdown_no_heading source fsParent children fm hfind] at h
    exact absurd h (by simp)
  | some hd =>
    cases hd with
    | mk v hcs =>
      cases v with
      | heading lvl =>
        by_cases hl : lvl = 1
        · subst hl
          rw [parse_markdown_heading1 source fsParent children fm hcs hfind] at h
          injection h with h
          exact ⟨hcs, rfl, h.symm⟩
        · rw [parse_markdown_bad_level source fsParent children fm lvl hcs hfind hl] at h
          exact absurd h (by simp)
      | document =>
        have := List.find?_some hfind
        simp [isHeadingNode, Node.value, isHeadingValue] at this
      | image url =>
        have := List.find?_some hfind
        simp [isHeadingNode, Node.value, isHeadingValue] at this
      | link url =>
        have := List.find?_some hfind
        simp [isHeadingNode, Node.value, isHeadingValue] at this
      | text s =>
        have := List.find?_some hfind
        simp [isHeadingNode, Node.value, isHeadingValue] at this
      | other =>
        have := List.find?_some hfind
        simp [isHeadingNode, Node.value, isHeadingValue] at this

/-! ### Title discipline (C5) -/

/-- C5: parsing succeeds only when the document's first heading (in
`iter_nodes` order) exists and has level 1, and then the page's title is the
collected text of that heading; a missing first heading, or a first heading
of a level other than 1, makes parsing fail with a parse error that names
that document (the error is returned per document, so other documents
proceed). -/
theorem c5_title_from_top_heading (source fsParent : Chars) (children : NodeForest)
    (fm : FrontMatter) :
    (∀ page, parse_markdown source fsParent children fm = Except.ok page →
       ∃ hcs, (preorderForest children).find? isHeadingNode
           = some (Node.mk (NodeValue.heading 1) hcs) ∧
         page.title = collectTextNode (Node.mk (NodeValue.heading 1) hcs)) ∧
    ((preorderForest children).find? isHeadingNode = none →
       parse_markdown source fsParent children fm
         = Except.error
             { source := source,
               errors := ["missing first heading for title".toList] }) ∧
    (∀ lvl hcs, (preorderForest children).find? isHeadingNode
         = some (Node.mk (NodeValue.heading lvl) hcs) → lvl ≠ 1 →
       parse_markdown source fsParent children fm
         = Except.error
             { source := source,
               errors := ["first heading in file should be level 1, instead was level ".toList
                            ++ Nat.toDigits 10 lvl] }) := by
  refine ⟨?_, ?_, ?_⟩
  · intro page hok
    obtain ⟨hcs, hfind, hpage⟩ := parse_markdown_ok_inv source fsParent children fm page hok
    exact ⟨hcs, hfind, by rw [hpage]; rfl⟩
  · exact parse_markdown_no_heading source fsParent children fm
  · exact fun lvl hcs hfind hlvl =>
      parse_markdown_bad_level source fsParent children fm lvl hcs hfind hlvl

/-- The document of the C5 witness: a level-1 heading with text
"My Page Title", then a text node "My page content". -/
def c5doc : NodeForest :=
  NodeForest.cons
    (Node.mk (NodeValue.heading 1)
      (NodeForest.cons (Node.mk (NodeValue.text "My Page Title".toList) NodeForest.nil)
        NodeForest.nil))
    (NodeForest.cons (Node.mk (NodeValue.text "My page content".toList) NodeForest.nil)
      NodeForest.nil)

/-- C5 witness: on a document whose first heading is level 1 with text
"My Page Title", parsing succeeds and the title is that text. -/
theorem c5_title_from_top_heading_witness :
    ∃ hcs, (preorderForest c5doc).find? isHeadingNode
        = some (Node.mk (NodeValue.heading 1) hcs) ∧
      (parsedPage "page.md".toList [] c5doc ⟨[], []⟩
          (Node.mk (NodeValue.heading 1)
            (NodeForest.cons (Node.mk (NodeValue.text "My Page Title".toList) NodeForest.nil)
              NodeForest.nil))).title
        = collectTextNode (Node.mk (NodeValue.heading 1) hcs) := by
  have h := (c5_title_from_top_heading "page.md".toList [] c5doc ⟨[], []⟩).1
    (parsedPage "page.md".toList [] c5doc ⟨[], []⟩
      (Node.mk (NodeValue.heading 1)
        (NodeForest.cons (Node.mk (NodeValue.text "My Page Title".toList) NodeForest.nil)
          NodeForest.nil)))
    (by rfl)
  exact h

/-! ### Absolute links pass through (C6) -/

/-- Every collected local link stems from a link node whose URL starts with
none of "http://", "https://", "ac:". -/
theorem local_links_from_link_nodes (source fsParent : Chars) (children : NodeForest)
    (fm : FrontMatter) (page : MarkdownPage) (ll : LocalLink)
    (hok : parse_markdown source fsParent children fm = Except.ok page)
    (hmem : ll ∈ page.local_links) :
    ∃ n ∈ preorderForest children, ∃ url,
      n.value = NodeValue.link url ∧
      "http://".toList.isPrefixOf url = false ∧
      "https://".toList.isPrefixOf url = false ∧
      "ac:".toList.isPrefixOf url = false ∧
      localLinkFromStr url (parentDir source) = some ll := by
  obtain ⟨hcs, _, hpage⟩ := parse_markdown_ok_inv source fsParent children fm page hok
  rw [hpage] at hmem
  simp only [parsedPage, collectLocalLinks, List.mem_filterMap] at hmem
  obtain ⟨n, hn, hf⟩ := hmem
  cases hv : n.value with
  | link url =>
    rw [hv] at hf
    simp only at hf
    by_cases hc : ("http://".toList.isPrefixOf url || "https://".toList.isPrefixOf url
        || "ac:".toList.isPrefixOf url) = true
    · rw [if_pos hc] at hf
      exact absurd hf (by simp)
    · rw [if_neg hc] at hf
      have hc2 := hc
      simp only [Bool.or_eq_true, not_or, Bool.not_eq_true] at hc2
      exact ⟨n, hn, url, hv, hc2.1.1, hc2.1.2, hc2.2, hf⟩
  | document => rw [hv] at hf; exact absurd hf (by simp)
  | heading lvl => rw [hv] at hf; exact absurd hf (by simp)
  | image url => rw [hv] at hf; exact absurd hf (by simp)
  | text s => rw [hv] at hf; exact absurd hf (by simp)
  | other => rw [hv] at hf; exact absurd hf (by simp)

/-- C6: every link collected into `local_links` stems from a link node whose
URL starts with none of "http://", "https://", "ac:"; hence a link whose URL
starts with "http://" or "https://" is never collected into the document's
local links and is never rewritten through the link registry. -/
theorem c6_absolute_links_pass_through (source fsParent : Chars) (children : NodeForest)
    (fm : FrontMatter) (page : MarkdownPage) (ll : LocalLink)
    (hok : parse_markdown source fsParent children fm = Except.ok page)
    (hmem : ll ∈ page.local_links) :
    ∃ n ∈ preorderForest children, ∃ url,
      n.value = NodeValue.link url ∧
      "http://".toList.isPrefixOf url = false ∧
      "https://".toList.isPrefixOf url = false ∧
      "ac:".toList.isPrefixOf url = false ∧
      localLinkFromStr url (parentDir source) = some ll :=
  local_links_from_link_nodes source fsParent children fm page ll hok hmem

/-- The document of the C6 witness: a level-1 heading, a relative link and an
absolute link. -/
def c6doc : NodeForest :=
  NodeForest.cons
    (Node.mk (NodeValue.heading 1)
      (NodeForest.cons (Node.mk (NodeValue.text "T".toList) NodeForest.nil) NodeForest.nil))
    (NodeForest.cons (Node.mk (NodeValue.link "hello-world.md".toList) NodeForest.nil)
      (NodeForest.cons (Node.mk (NodeValue.link "https://example.com".toList) NodeForest.nil)
        NodeForest.nil))

/-- C6 witness: the one collected local link of `c6doc` stems from the
relative URL, not from the absolute one. -/
theorem c6_absolute_links_pass_through_witness :
    ∃ n ∈ preorderForest c6doc, ∃ url,
      n.value = NodeValue.link url ∧
      "http://".toList.isPrefixOf url = false ∧
      "https://".toList.isPrefixOf url = false ∧
      "ac:".toList.isPrefixOf url = false ∧
      localLinkFromStr url (parentDir "page.md".toList)
        = some { path := "hello-world.md".toList, anchor := none } := by
  refine c6_absolute_links_pass_through "page.md".toList [] c6doc ⟨[], []⟩
    (parsedPage "page.md".toList [] c6doc ⟨[], []⟩
      (Node.mk (NodeValue.heading 1)
        (NodeForest.cons (Node.mk (NodeValue.text "T".toList) NodeForest.nil) NodeForest.nil)))
    { path := "hello-world.md".toList, anchor := none } (by rfl) (by decide)

/-! ### Images become attachments (C7) -/

/-- The document of the C7 counterexample: a level-1 heading and an image
whose target "httpx.png" is not absolute yet starts with "http". -/
def c7doc : NodeForest :=
  NodeForest.cons
    (Node.mk (NodeValue.heading 1)
      (NodeForest.cons (Node.mk (NodeValue.text "T".toList) NodeForest.nil) NodeForest.nil))
    (NodeForest.cons (Node.mk (NodeValue.image "httpx.png".toList) NodeForest.nil)
      NodeForest.nil)

/-- The attachments of a parse outcome, `none` on failure. -/
def attachmentsOf : Except ParseErrorData MarkdownPage → Option (List ImageAttachment)
  | Except.ok page => some page.attachments
  | Except.error _ => none

/-- C7 (counterexample): the image target "httpx.png" does not begin with
"http://" or "https://" (so the claim demands an attachment), the image is in
the document, parsing succeeds, and yet no attachment is produced: the code
guards with `starts_with("http")`, not with the two absolute schemes. -/
theorem c7_images_cex :
    "http://".toList.isPrefixOf "httpx.png".toList = false ∧
    "https://".toList.isPrefixOf "httpx.png".toList = false ∧
    Node.mk (NodeValue.image "httpx.png".toList) NodeForest.nil ∈ preorderForest c7doc ∧
    attachmentsOf (parse_markdown "page.md".toList [] c7doc ⟨[], []⟩) = some [] := by
  decide

/-- C7 (amended): every image whose target does not begin with "http"
produces an `ImageAttachment` scoped to the owning document's directory, and
every collected local link stems from a link node, never from an image
reference (so images never reach the link registry). -/
theorem c7_images_to_attachments (source fsParent : Chars) (children : NodeForest)
    (fm : FrontMatter) (page : MarkdownPage)
    (hok : parse_markdown source fsParent children fm = Except.ok page) :
    (∀ n ∈ preorderForest children, ∀ url, n.value = NodeValue.image url →
       "http".toList.isPrefixOf url = false →
       ({ url := url, pageDir := fsParent } : ImageAttachment) ∈ page.attachments) ∧
    (∀ ll ∈ page.local_links, ∃ n ∈ preorderForest children, ∃ url,
       n.value = NodeValue.link url ∧
       localLinkFromStr url (parentDir source) = some ll) := by
  obtain ⟨hcs, _, hpage⟩ := parse_markdown_ok_inv source fsParent children fm page hok
  constructor
  · intro n hn url hv hpre
    rw [hpage]
    simp only [parsedPage, collectAttachments, List.mem_filterMap]
    have hpre2 : ¬ ['h', 't', 't', 'p'] <+: url := by
      intro hcontra
      have hb : (['h', 't', 't', 'p'] : Chars).isPrefixOf url = true :=
        List.isPrefixOf_iff_prefix.mpr hcontra
      rw [show (['h', 't', 't', 'p'] : Chars) = "http".toList from rfl, hpre] at hb
      exact absurd hb (by simp)
    exact ⟨n, hn, by rw [hv]; simp [hpre2]⟩
  · intro ll hmem
    obtain ⟨n, hn, url, hv, _, _, _, heq⟩ :=
      local_links_from_link_nodes source fsParent children fm page ll hok hmem
    exact ⟨n, hn, url, hv, heq⟩

/-- The document of the C7 witness: a level-1 heading and a relative image. -/
def c7docW : NodeForest :=
  NodeForest.cons
    (Node.mk (NodeValue.heading 1)
      (NodeForest.cons (Node.mk (NodeValue.text "T".toList) NodeForest.nil) NodeForest.nil))
    (NodeForest.cons (Node.mk (NodeValue.image "myimage.png".toList) NodeForest.nil)
      NodeForest.nil)

/-- C7 witness: the relative image "myimage.png" becomes an attachment scoped
to the document's directory. -/
theorem c7_images_to_attachments_witness :
    ({ url := "myimage.png".toList, pageDir := "space".toList } : ImageAttachment)
      ∈ (parsedPage "page.md".toList "space".toList c7docW ⟨[], []⟩
          (Node.mk (NodeValue.heading 1)
            (NodeForest.cons (Node.mk (NodeValue.text "T".toList) NodeForest.nil)
              NodeForest.nil))).attachments := by
  refine (c7_images_to_attachments "page.md".toList "space".toList c7docW ⟨[], []⟩
    (parsedPage "page.md".toList "space".toList c7docW ⟨[], []⟩
      (Node.mk (NodeValue.heading 1)
        (NodeForest.cons (Node.mk (NodeValue.text "T".toList) NodeForest.nil)
          NodeForest.nil)))
    (by rfl)).1
    (Node.mk (NodeValue.image "myimage.png".toList) NodeForest.nil)
    (by decide) "myimage.png".toList (by rfl) (by decide)

/-! ### The archive reason (C8) -/

/-- C8: every archive request issued by `ConfluenceNode::archive` carries
exactly the reason string "Orphaned" and targets the node's own id. -/
theorem c8_archive_reason (node : ConfluenceNode) :
    (ConfluenceNode.archive node).reason = "Orphaned".toList ∧
    (ConfluenceNode.archive node).id = node.id :=
  ⟨rfl, rfl⟩

/-! ### Emoji front matter (C9) -/

/-- `parse_emoji`: the external crate lookup `emojis::get_by_shortcode` is
passed in as `db`; an empty front-matter emoji string yields `None`; an
unknown shortcode yields `None` after printing a warning (the printed
warnings are returned alongside the result); a known shortcode yields the
lowercase hexadecimal encoding of the emoji's first scalar
(`chars().next().unwrap()` panics only if the database returned an empty
emoji string, which the crate never does). -/
def parse_emoji (db : Chars → Option Chars) (page : MarkdownPage) :
    PanicOr (Option Chars × List Chars) :=
  let emoji_string := page.front_matter.emoji
  if emoji_string.isEmpty then .ok (none, [])
  else
    match db emoji_string with
    | some e =>
      match e.head? with
      | none => .panicked
      | some ch => .ok (some (Nat.toDigits 16 ch.toNat), [])
    | none => .ok (none, ["Unknown short code '".toList ++ emoji_string ++ "'".toList])

/-- C9: emoji front-matter handling is non-fatal and total as long as the
emoji database maps shortcodes to nonempty emoji strings (which the external
crate guarantees): `parse_emoji` never panics, returns `None` on an empty
front-matter string, returns `None` with only a warning on an unknown
shortcode, and returns the lowercase hex encoding of the emoji's first
scalar on a valid shortcode. -/
theorem c9_parse_emoji_total (db : Chars → Option Chars) (page : MarkdownPage)
    (hdb : ∀ t e, db t = some e → e ≠ []) :
    parse_emoji db page ≠ PanicOr.panicked ∧
    (page.front_matter.emoji = [] → parse_emoji db page = .ok (none, [])) ∧
    (page.front_matter.emoji ≠ [] → db page.front_matter.emoji = none →
       parse_emoji db page
         = .ok (none, ["Unknown short code '".toList ++ page.front_matter.emoji
                         ++ "'".toList])) ∧
    (∀ ch rest, db page.front_matter.emoji = some (ch :: rest) →
       page.front_matter.emoji ≠ [] →
       parse_emoji db page = .ok (some (Nat.toDigits 16 ch.toNat), [])) := by
  cases hsl : page.front_matter.emoji with
  | nil =>
    refine ⟨?_, fun _ => ?_, fun hne _ => absurd rfl hne, fun ch rest _ hne => absurd rfl hne⟩
    · simp [parse_emoji, hsl]
    · simp [parse_emoji, hsl]
  | cons a as =>
    cases hdbs : db (a :: as) with
    | none =>
      refine ⟨?_, fun he => absurd he (by simp), fun _ _ => ?_,
        fun ch rest hsome _ => absurd hsome (by simp)⟩
      · simp [parse_emoji, hsl, hdbs]
      · simp [parse_emoji, hsl, hdbs]
    | some e =>
      have he : e ≠ [] := hdb _ _ hdbs
      cases e with
      | nil => exact absurd rfl he
      | cons ch0 rest0 =>
        refine ⟨?_, fun he2 => absurd he2 (by simp), fun _ hnone => absurd hnone (by simp),
          fun ch rest hsome _ => ?_⟩
        · simp [parse_emoji, hsl, hdbs]
        · injection hsome with hsome2
          injection hsome2 with h1 h2
          subst h1
          simp [parse_emoji, hsl, hdbs]

/-- The emoji database of the C9 witness: only the shortcode "heart_eyes". -/
def c9db (s : Chars) : Option Chars :=
  if s = "heart_eyes".toList then some ['😍'] else none

/-- The page of the C9 witness: front-matter emoji "heart_eyes". -/
def c9page : MarkdownPage :=
  { title := "Test Heading".toList, source := "test.md".toList,
    children := NodeForest.nil, attachments := [], local_links := [],
    front_matter := ⟨"heart_eyes".toList, []⟩, warnings := [] }

/-- C9 witness: the shortcode "heart_eyes" resolves to the lowercase hex
"1f60d" of U+1F60D. -/
theorem c9_parse_emoji_total_witness :
    parse_emoji c9db c9page = .ok (some "1f60d".toList, []) := by
  have hdb : ∀ t e, c9db t = some e → e ≠ [] := by
    intro t e h
    by_cases ht : t = "heart_eyes".toList
    · simp only [c9db, if_pos ht] at h
      injection h with h2
      rw [← h2]
      simp
    · simp only [c9db, if_neg ht] at h
      exact absurd h (by simp)
  have h4 := (c9_parse_emoji_total c9db c9page hdb).2.2.2 '😍' [] (by decide) (by decide)
  rw [h4]
  decide

/-! ### The title heading is detached (C10) -/

/-- C10: on every successful parse the level-1 title heading subtree is
detached: the document's pre-order value sequence splits into a heading-free
part, the title heading's subtree values, and the rest, and the parsed
page's tree carries exactly that sequence without the heading's segment — so
the rendered content never contains the title heading while all other body
content is preserved in order. -/
theorem c10_title_heading_detached (source fsParent : Chars) (children : NodeForest)
    (fm : FrontMatter) (page : MarkdownPage)
    (hok : parse_markdown source fsParent children fm = Except.ok page) :
    ∃ hcs l r,
      (preorderForest children).find? isHeadingNode
        = some (Node.mk (NodeValue.heading 1) hcs) ∧
      valuesForest children
        = l ++ valuesNode (Node.mk (NodeValue.heading 1) hcs) ++ r ∧
      (∀ v ∈ l, isHeadingValue v = false) ∧
      valuesForest page.children = l ++ r := by
  obtain ⟨hcs, hfind, hpage⟩ := parse_markdown_ok_inv source fsParent children fm page hok
  obtain ⟨l, r, hdec, hnh, hdet, _⟩ := detachFF_spec children _ hfind
  exact ⟨hcs, l, r, hfind, hdec, hnh, by rw [hpage]; exact hdet⟩

/-- The document of the C10 witness: a level-1 title heading followed by a
body text node. -/
def c10doc : NodeForest :=
  NodeForest.cons
    (Node.mk (NodeValue.heading 1)
      (NodeForest.cons (Node.mk (NodeValue.text "Title".toList) NodeForest.nil)
        NodeForest.nil))
    (NodeForest.cons (Node.mk (NodeValue.text "body".toList) NodeForest.nil)
      NodeForest.nil)

/-- C10 witness: on `c10doc` the heading segment is removed and the body
text is preserved. -/
theorem c10_title_heading_detached_witness :
    ∃ hcs l r,
      (preorderForest c10doc).find? isHeadingNode
        = some (Node.mk (NodeValue.heading 1) hcs) ∧
      valuesForest c10doc
        = l ++ valuesNode (Node.mk (NodeValue.heading 1) hcs) ++ r ∧
      (∀ v ∈ l, isHeadingValue v = false) ∧
      valuesForest (parsedPage "page.md".toList [] c10doc ⟨[], []⟩
          (Node.mk (NodeValue.heading 1)
            (NodeForest.cons (Node.mk (NodeValue.text "Title".toList) NodeForest.nil)
              NodeForest.nil))).children = l ++ r :=
  c10_title_heading_detached "page.md".toList [] c10doc ⟨[], []⟩
    (parsedPage "page.md".toList [] c10doc ⟨[], []⟩
      (Node.mk (NodeValue.heading 1)
        (NodeForest.cons (Node.mk (NodeValue.text "Title".toList) NodeForest.nil)
          NodeForest.nil)))
    (by rfl)

end MarkedSpace
